import Mathlib

/-!
# Verification of the stac-task payload/task execution pipeline

Shallow embedding of the two Python packages in this repository:

* `Stactask` embeds `src/stactask/task.py` (the legacy `Task` class:
  provenance stamping via `add_software_version` and collection
  reassignment via `assign_collections`).
* `StacTaskCore` embeds `src/src/stac_task/payload.py` and
  `src/src/stac_task/task.py` (the `Payload` model with indirection
  resolution and `execute`, and the `Task` processing strategies).

Items are Python dictionaries in the source; they are embedded as records
carrying exactly the keys the pipeline reads or writes, plus an opaque
remainder.  External collaborators (byte fetching, href resolution, the
JSONPath match predicate) are parameters, following section 6 of the spec.
-/

namespace Stactask

/-- A value stored under a key of an item property dictionary.  The
pipeline only ever writes the software record
(`i["properties"]["processing:software"] = {cls.name: cls.version}` in
`Task.add_software_version`); other values are opaque strings. -/
inductive PVal where
  | software (name version : String)
  | str (s : String)
  deriving DecidableEq, Repr

/-- One feature of the item collection, as read and written by
`stactask/task.py`.  A feature is a Python dictionary; the embedding keeps
the keys the code touches (`collection`, `stac_extensions`, `properties`)
and an opaque remainder `rest` standing for all other keys.  `none` for
`collection`, `stac_extensions` or `properties` means the key is absent
from the dictionary, so that indexing it raises `KeyError`. -/
structure SItem where
  collection : Option String
  stac_extensions : Option (List String)
  properties : Option (List (String × PVal))
  rest : Nat
  deriving DecidableEq, Repr

/-- The error a dictionary index `d[k]` raises when `k` is absent. -/
inductive PyErr where
  | keyError (key : String)
  deriving DecidableEq, Repr

/-- Python dictionary assignment `d[k] = v` on an association-list view of
the dictionary: replace the value in place when the key is present,
append the new binding otherwise. -/
def setKey (l : List (String × PVal)) (k : String) (v : PVal) :
    List (String × PVal) :=
  if l.any (fun p => p.1 == k) then
    l.map (fun p => if p.1 == k then (k, v) else p)
  else
    l ++ [(k, v)]

/-- Model of the Python idiom `list(set(l))` used on line 123 of
`stactask/task.py`.  The iteration order of a CPython set is
implementation defined; the embedding fixes it as first-occurrence
deduplication, the deterministic order a dictionary-based
deduplication would give. -/
def pySetList : List String → List String
  | [] => []
  | x :: xs => x :: pySetList (xs.filter (fun y => y != x))
termination_by l => l.length
decreasing_by
  simpa using Nat.lt_succ_of_le (List.length_filter_le _ _)

/-- The processing-extension marker appended by `add_software_version`. -/
def processing_ext : String :=
  "https://stac-extensions.github.io/processing/v1.1.0/schema.json"

/-- Embedding of `Task.add_software_version` on a single feature: append the
processing-extension marker to `i["stac_extensions"]`, deduplicate, and
set `i["properties"]["processing:software"]` to a record of the task
name and version.  Indexing a missing key raises `KeyError`; the source
accesses `stac_extensions` first, then `properties`. -/
def add_software_version_item (name version : String) (i : SItem) :
    Except PyErr SItem :=
  match i.stac_extensions with
  | none => .error (.keyError "stac_extensions")
  | some exts =>
    match i.properties with
    | none => .error (.keyError "properties")
    | some props =>
      .ok { i with
        stac_extensions := some (pySetList (exts ++ [processing_ext])),
        properties :=
          some (setKey props "processing:software" (.software name version)) }

/-- Embedding of `Task.add_software_version` over the feature list: the Python loop
stops at the first raised `KeyError`, which `mapM` over `Except`
reproduces. -/
def add_software_version (name version : String) (items : List SItem) :
    Except PyErr (List SItem) :=
  items.mapM (add_software_version_item name version)

/-- Embedding of `Task.assign_collections` restricted to one feature: the inner loop of
`itertools.product`, folding over the `upload_options["collections"]`
rules in declaration order.  Each rule whose expression matches assigns
its collection; matching is evaluated against the feature as already
updated by earlier rules, exactly as the in-place mutation of the source
does.  The JSONPath predicate `stac_jsonpath_match` lives outside the
core (spec section 6, `matchesPath`) and is a parameter. -/
def assign_collections_item (matchFn : SItem → String → Bool)
    (rules : List (String × String)) (i : SItem) : SItem :=
  rules.foldl
    (fun i ce => if matchFn i ce.2 then { i with collection := some ce.1 } else i)
    i

/-- Embedding of `Task.assign_collections`: `itertools.product(features, rules)`
iterates every rule for every feature; features are mutated
independently, so the product is a map of the per-feature fold. -/
def assign_collections (matchFn : SItem → String → Bool)
    (rules : List (String × String)) (features : List SItem) : List SItem :=
  features.map (assign_collections_item matchFn rules)

end Stactask

namespace StacTaskCore

/-- A raw item dictionary as carried in `Payload.features`
(`List[Dict[str, Any]]`); opaque to the payload layer. -/
abbrev Dict := List (String × String)

/-- The error taxonomy of the pipeline (spec section 7).  The source
raises `ValueError` with a message for the configuration failures and a
pydantic `ValidationError` for decode failures; task construction and the
task body may raise arbitrary errors. -/
inductive ExecError where
  | configurationError (msg : String)
  | unknownTaskError (msg : String)
  | validationError (msg : String)
  | taskError (msg : String)
  deriving DecidableEq, Repr

/-- A task configuration value, one entry of `process.tasks`.  The
configurations are arbitrary JSON values, opaque to the pipeline; only
`isinstance(config, dict)` is inspected, so the embedding distinguishes
dictionaries from the other shapes. -/
inductive ConfigVal where
  | dict (entries : List (String × String))
  | str (s : String)
  | list (elems : List String)
  deriving DecidableEq, Repr

/-- Whether a configuration value is a Python dictionary
(`isinstance(config, dict)`). -/
def ConfigVal.isDict : ConfigVal → Bool
  | .dict _ => true
  | _ => false

/-- Modelled from the spec: the `Process` model is defined in
`src/stac_task/models.py`, which is not among the sources.  Per spec
section 3 it is "a mapping from task name to an arbitrary configuration
object", plus an `upload_options` sub-object that the execution path
never reads. -/
structure Process where
  tasks : List (String × ConfigVal)
  upload_options : List (String × String)
  deriving DecidableEq, Repr

/-- The `Payload` pydantic model of `src/stac_task/payload.py`: the
`FeatureCollection` discriminator, the raw features, the process
definition, the optional indirection href, and the excluded-from-dump
`self_href` recording where the payload was read from. -/
structure Payload where
  type : String := "FeatureCollection"
  features : List Dict
  process : Process
  href : Option String
  self_href : Option String
  deriving DecidableEq, Repr

/-- The Python truthiness test guarding indirection in
`Payload.from_href`: `payload.href and not payload.features` is true
exactly when `href` is a non-empty string and `features` is empty. -/
def Payload.isIndirect (p : Payload) : Bool :=
  (p.href.getD "" != "") && p.features.isEmpty

/-- The failures `Payload.from_href` can surface: a fetch or JSON
validation failure from `read_href`/`model_validate_json`, or the
`ValueError("Multiple indirections are not supported")`. -/
inductive LoadError where
  | fetchError
  | indirectionError
  deriving DecidableEq, Repr

/-- Embedding of `Payload.from_href`.  `store` stands for the composition of
`stac_asset.blocking.read_href` with `model_validate_json` (`none` when
fetching or validation fails) and `resolve` for
`pystac.utils.make_absolute_href` with `start_is_dir=False`; both are
external collaborators (spec section 6).  An indirect payload is
re-fetched from the resolved href with `allow_indrections=False`, so at
most one hop is ever followed; otherwise `self_href` is set to the href
just loaded from and the payload returned. -/
def Payload.from_href (store : String → Option Payload)
    (resolve : String → String → String) :
    String → Bool → Except LoadError Payload
  | href, allow_indrections =>
    match store href with
    | none => .error .fetchError
    | some payload =>
      if payload.isIndirect then
        if allow_indrections then
          Payload.from_href store resolve (resolve (payload.href.getD "") href) false
        else
          .error .indirectionError
      else
        .ok { payload with self_href := some href }
termination_by _ allow => if allow then 1 else 0
decreasing_by simp_all

end StacTaskCore

namespace StacTaskCore

/-- Embedding of `OneToManyTask.process` from `src/stac_task/task.py`: start from an
empty output list and `extend` it with the one-to-many result of each
input value in order.  `f` stands for the abstract
`process_one_to_many`. -/
def oneToManyProcess {Input Output : Type} (f : Input → List Output)
    (input : List Input) : List Output :=
  input.foldl (fun output value => output ++ f value) []

/-- Embedding of `OneToOneTask.process`: start from an empty output list and `append`
the one-to-one result of each input value in order.  `f` stands for the
abstract `process_one_to_one`. -/
def oneToOneProcess {Input Output : Type} (f : Input → Output)
    (input : List Input) : List Output :=
  input.foldl (fun output value => output ++ [f value]) []

/-- Embedding of `Task.process_dicts`: validate every raw dictionary into the input
model (the inner list comprehension, which raises on the first invalid
item before `process` runs), hand the decoded batch to `process`, and
dump every output back to a dictionary.  `validate` stands for
`self.input.model_validate`, `dump` for `model_dump`, and `proc` for the
subclass `process` method, which may itself fail. -/
def process_dicts {Input Output : Type}
    (validate : Dict → Except ExecError Input) (dump : Output → Dict)
    (proc : List Input → Except ExecError (List Output))
    (input : List Dict) : Except ExecError (List Dict) := do
  let decoded ← input.mapM validate
  let out ← proc decoded
  return out.map dump

/-- A task class, as consumed by `Payload.execute`: constructing it from
the configuration dictionary (`task_class(**config)`, which may raise)
yields a runnable task.  The runnable takes the `payload_href` assigned
by `execute` and the raw features, and stands for
`task.process_dicts(self.features)`. -/
structure TaskClass where
  construct :
    ConfigVal → Except ExecError (Option String → List Dict → Except ExecError (List Dict))

/-- The `if not task_class` fallback of `Payload.execute`: a
caller-supplied class takes precedence, otherwise the registry
(`stac_task.get_task`, a module outside the payload file) is consulted. -/
def resolve_task_class (task_class : Option TaskClass)
    (getTask : String → Option TaskClass) (name : String) : Option TaskClass :=
  match task_class with
  | some tc => some tc
  | none => getTask name

/-- Embedding of `Payload.execute`.  The method only reads `self` and builds the
result with `model_copy(deep=True, update={"features": features})`; the
embedding returns the final state of `self` paired with the outcome, so
that the absence of mutation is explicit in the type.  Failure cases:
the task name missing from `process.tasks` or its configuration not a
dictionary raise the configuration `ValueError`s of lines 90-94; an
unregistered name raises from the registry lookup; construction and
processing errors propagate. -/
def Payload.execute (getTask : String → Option TaskClass) (p : Payload)
    (name : String) (task_class : Option TaskClass) :
    Payload × Except ExecError Payload :=
  match p.process.tasks.lookup name with
  | none =>
    (p, .error (.configurationError ("task is not configured in payload: " ++ name)))
  | some config =>
    if config.isDict then
      match resolve_task_class task_class getTask name with
      | none => (p, .error (.unknownTaskError name))
      | some tc =>
        match tc.construct config with
        | .error e => (p, .error e)
        | .ok run =>
          match run p.self_href p.features with
          | .error e => (p, .error e)
          | .ok features => (p, .ok { p with features := features })
    else
      (p, .error (.configurationError ("task config is not a dict: " ++ name)))

end StacTaskCore

namespace StacTaskCore

lemma oneToManyProcess_foldl {Input Output : Type} (f : Input → List Output)
    (l : List Input) (acc : List Output) :
    l.foldl (fun output value => output ++ f value) acc = acc ++ (l.map f).flatten := by
  induction l generalizing acc with
  | nil => simp
  | cons x xs ih => simp [ih, List.append_assoc]

lemma oneToManyProcess_eq_flatten {Input Output : Type} (f : Input → List Output)
    (input : List Input) :
    oneToManyProcess f input = (input.map f).flatten := by
  simpa using oneToManyProcess_foldl f input []

/-- C6: the OneToMany strategy output is the concatenation, in input
order, of the per-item transform results, and splits along the input
list; in particular an input value whose transform is empty contributes
no outputs. -/
theorem c6_one_to_many_concat {Input Output : Type} (f : Input → List Output)
    (input l₁ l₂ : List Input) (x : Input) :
    oneToManyProcess f input = (input.map f).flatten ∧
    oneToManyProcess f (l₁ ++ x :: l₂) =
      oneToManyProcess f l₁ ++ f x ++ oneToManyProcess f l₂ := by
  refine ⟨oneToManyProcess_eq_flatten f input, ?_⟩
  simp [oneToManyProcess_eq_flatten, List.append_assoc]

lemma oneToOneProcess_foldl {Input Output : Type} (f : Input → Output)
    (l : List Input) (acc : List Output) :
    l.foldl (fun output value => output ++ [f value]) acc = acc ++ l.map f := by
  induction l generalizing acc with
  | nil => simp
  | cons x xs ih => simp [ih, List.append_assoc]

lemma oneToOneProcess_eq_map {Input Output : Type} (f : Input → Output)
    (input : List Input) :
    oneToOneProcess f input = input.map f := by
  simpa using oneToOneProcess_foldl f input []

/-- C7: the OneToOne strategy produces exactly one output per input,
preserving length and order: the output has the length of the input and
its i-th element is the transform of the i-th input. -/
theorem c7_one_to_one_length_order {Input Output : Type} (f : Input → Output)
    (input : List Input) :
    (oneToOneProcess f input).length = input.length ∧
    ∀ i : Nat, (oneToOneProcess f input)[i]? = (input[i]?).map f := by
  rw [oneToOneProcess_eq_map]
  exact ⟨List.length_map _ _, fun i => List.getElem?_map f input i⟩

lemma mapM_error_of_first {α β : Type} (g : α → Except ExecError β)
    (pre rest : List α) (d : α) (e : ExecError)
    (hpre : ∀ x ∈ pre, ∃ v, g x = .ok v) (hd : g d = .error e) :
    (pre ++ d :: rest).mapM g = .error e := by
  induction pre with
  | nil =>
    rw [List.nil_append, List.mapM_cons, hd]
    rfl
  | cons x xs ih =>
    obtain ⟨v, hv⟩ := hpre x (by simp)
    rw [List.cons_append, List.mapM_cons, hv]
    have hstep :
        ((Except.ok v : Except ExecError β) >>= fun y =>
          (xs ++ d :: rest).mapM g >>= fun ys => pure (y :: ys)) =
          ((xs ++ d :: rest).mapM g >>= fun ys => pure (v :: ys)) := rfl
    rw [hstep, ih (fun y hy => hpre y (by simp [hy]))]
    rfl

/-- C9: when some raw dictionary fails to decode into the input model,
`process_dicts` fails with the error of the first invalid item, for
every possible `process` body: the batch is rejected whole and the task
process is never invoked. -/
theorem c9_decode_failure_aborts {Input Output : Type}
    (validate : Dict → Except ExecError Input) (dump : Output → Dict)
    (pre rest : List Dict) (d : Dict) (e : ExecError)
    (hpre : ∀ x ∈ pre, ∃ v, validate x = .ok v)
    (hd : validate d = .error e) :
    ∀ proc, process_dicts validate dump proc (pre ++ d :: rest) = .error e := by
  intro proc
  unfold process_dicts
  rw [mapM_error_of_first validate pre rest d e hpre hd]
  rfl

/-- Witness for C9 at a concrete batch: the first dictionary decodes,
the second does not, and the whole batch is rejected with the decode
error even though the task process itself would succeed. -/
theorem c9_decode_failure_aborts_witness :
    process_dicts
      (fun d => if d = ([] : Dict) then .ok (0 : Nat) else .error (.validationError "bad"))
      (fun _ : Nat => ([] : Dict)) (fun l => .ok l)
      ([([] : Dict)] ++ [("a", "b")] :: []) = .error (.validationError "bad") :=
  c9_decode_failure_aborts
    (fun d => if d = ([] : Dict) then .ok (0 : Nat) else .error (.validationError "bad"))
    (fun _ : Nat => ([] : Dict)) [([] : Dict)] [] [("a", "b")]
    (.validationError "bad")
    (by intro x hx; simp at hx; subst hx; exact ⟨0, by simp⟩)
    (by simp) (fun l => .ok l)

end StacTaskCore

namespace StacTaskCore

/-- C5: executing a task whose name is absent from `process.tasks`, or
whose configuration is not a dictionary, fails with the configuration
error, and the payload (the first component of the result) is left
unmodified. -/
theorem c5_missing_task_configuration_error (getTask : String → Option TaskClass)
    (p : Payload) (name : String) (task_class : Option TaskClass)
    (h : p.process.tasks.lookup name = none ∨
         ∃ c, p.process.tasks.lookup name = some c ∧ c.isDict = false) :
    ∃ msg, Payload.execute getTask p name task_class =
      (p, .error (.configurationError msg)) := by
  rcases h with h | ⟨c, hc, hd⟩
  · exact ⟨"task is not configured in payload: " ++ name, by simp [Payload.execute, h]⟩
  · exact ⟨"task config is not a dict: " ++ name, by simp [Payload.execute, hc, hd]⟩

/-- A concrete payload carrying one feature and one configured task,
used to instantiate the execution theorems. -/
def samplePayload : Payload :=
  { type := "FeatureCollection"
    features := [[("id", "x1")]]
    process := { tasks := [("passthrough-task", .dict [])], upload_options := [] }
    href := none
    self_href := some "s3://bucket/payload.json" }

/-- A concrete task class whose process returns its input unchanged. -/
def sampleTaskClass : TaskClass :=
  { construct := fun _ => .ok (fun _ features => .ok features) }

/-- Witness for C5: a task name that is not configured in the sample
payload is rejected with the configuration error and the payload is
returned unchanged. -/
theorem c5_missing_task_configuration_error_witness :
    ∃ msg, Payload.execute (fun _ => none) samplePayload "other-task" none =
      (samplePayload, .error (.configurationError msg)) :=
  c5_missing_task_configuration_error (fun _ => none) samplePayload "other-task" none
    (Or.inl (by simp [samplePayload]))

/-- C4: when the task is configured, resolvable, constructible, and its
processing succeeds, `execute` leaves the input payload unmodified (the
first component) and returns a new payload whose `features` are the
task output and whose every other field — `type`, `process`, `href`,
`self_href` — is copied unchanged. -/
theorem c4_execute_frame (getTask : String → Option TaskClass) (p : Payload)
    (name : String) (task_class : Option TaskClass) (config : ConfigVal)
    (tc : TaskClass)
    (run : Option String → List Dict → Except ExecError (List Dict))
    (out : List Dict)
    (h1 : p.process.tasks.lookup name = some config)
    (h2 : config.isDict = true)
    (h3 : resolve_task_class task_class getTask name = some tc)
    (h4 : tc.construct config = .ok run)
    (h5 : run p.self_href p.features = .ok out) :
    Payload.execute getTask p name task_class =
      (p, .ok { p with features := out }) := by
  simp [Payload.execute, h1, h2, h3, h4, h5]

/-- Witness for C4: executing the passthrough sample task on the sample
payload returns the payload itself untouched together with a new
payload holding the task output. -/
theorem c4_execute_frame_witness :
    Payload.execute (fun _ => none) samplePayload "passthrough-task"
        (some sampleTaskClass) =
      (samplePayload, .ok { samplePayload with features := [[("id", "x1")]] }) :=
  c4_execute_frame (fun _ => none) samplePayload "passthrough-task"
    (some sampleTaskClass) (.dict []) sampleTaskClass
    (fun _ features => .ok features) [[("id", "x1")]]
    (by simp [samplePayload]) rfl rfl rfl rfl

end StacTaskCore

namespace StacTaskCore

/-- C2: loading from an href whose payload is indirect, when the target
payload is itself indirect, fails with the multiple-indirection error:
at most one indirection hop is ever followed. -/
theorem c2_double_indirection_error (store : String → Option Payload)
    (resolve : String → String → String) (h : String) (p q : Payload)
    (h1 : store h = some p) (h2 : p.isIndirect = true)
    (h3 : store (resolve (p.href.getD "") h) = some q)
    (h4 : q.isIndirect = true) :
    Payload.from_href store resolve h true = .error .indirectionError := by
  rw [Payload.from_href, h1]
  simp only [h2, if_true]
  rw [Payload.from_href, h3]
  simp [h4]

/-- An empty process definition for the indirection examples. -/
def emptyProcess : Process := { tasks := [], upload_options := [] }

/-- An indirect sample payload stored at "a", pointing at "b". -/
def indirectPayloadA : Payload :=
  { type := "FeatureCollection", features := [], process := emptyProcess,
    href := some "b", self_href := none }

/-- An indirect sample payload stored at "b", pointing at "c". -/
def indirectPayloadB : Payload :=
  { type := "FeatureCollection", features := [], process := emptyProcess,
    href := some "c", self_href := none }

/-- A direct sample payload (no indirection href). -/
def directPayload : Payload :=
  { type := "FeatureCollection", features := [[("id", "x1")]],
    process := emptyProcess, href := none, self_href := none }

/-- A two-level indirect store: "a" points at "b", which points at "c". -/
def doubleIndirectStore : String → Option Payload := fun h =>
  if h = "a" then some indirectPayloadA
  else if h = "b" then some indirectPayloadB
  else none

/-- Witness for C2: loading "a" from the two-level indirect store fails
with the multiple-indirection error. -/
theorem c2_double_indirection_error_witness :
    Payload.from_href doubleIndirectStore (fun r _ => r) "a" true =
      .error .indirectionError :=
  c2_double_indirection_error doubleIndirectStore (fun r _ => r) "a"
    indirectPayloadA indirectPayloadB
    (by simp [doubleIndirectStore])
    (by simp [indirectPayloadA, Payload.isIndirect])
    (by simp [doubleIndirectStore, indirectPayloadA, indirectPayloadB])
    (by simp [indirectPayloadB, Payload.isIndirect])

lemma from_href_ok_source_false (store : String → Option Payload)
    (resolve : String → String → String) (href : String) (q : Payload)
    (hq : Payload.from_href store resolve href false = .ok q) :
    ∃ h₀ p₀, store h₀ = some p₀ ∧ p₀.isIndirect = false ∧
      q = { p₀ with self_href := some h₀ } := by
  rw [Payload.from_href] at hq
  cases hp : store href with
  | none => rw [hp] at hq; cases hq
  | some p =>
    rw [hp] at hq
    by_cases hi : p.isIndirect
    · simp [hi] at hq
    · simp only [hi, Bool.false_eq_true, if_false] at hq
      cases hq
      exact ⟨href, p, hp, by simpa using hi, rfl⟩

lemma from_href_ok_source (store : String → Option Payload)
    (resolve : String → String → String) (href : String) (allow : Bool)
    (q : Payload)
    (hq : Payload.from_href store resolve href allow = .ok q) :
    ∃ h₀ p₀, store h₀ = some p₀ ∧ p₀.isIndirect = false ∧
      q = { p₀ with self_href := some h₀ } := by
  cases allow with
  | false => exact from_href_ok_source_false store resolve href q hq
  | true =>
    rw [Payload.from_href] at hq
    cases hp : store href with
    | none => rw [hp] at hq; cases hq
    | some p =>
      rw [hp] at hq
      by_cases hi : p.isIndirect
      · simp only [hi, if_true] at hq
        exact from_href_ok_source_false store resolve _ q hq
      · simp only [hi, Bool.false_eq_true, if_false] at hq
        cases hq
        exact ⟨href, p, hp, by simpa using hi, rfl⟩

/-- C8: a fetched payload with an empty `href` is returned with its
content unchanged and `self_href` set to the load location; and every
successful load returns a payload fetched directly from its recorded
`self_href`, which is never an intermediate indirection pointer. -/
theorem c8_loaded_payload_self_href (store : String → Option Payload)
    (resolve : String → String → String) :
    (∀ (href : String) (allow : Bool) (p : Payload),
      store href = some p → p.href.getD "" = "" →
      Payload.from_href store resolve href allow =
        .ok { p with self_href := some href }) ∧
    (∀ (href : String) (allow : Bool) (q : Payload),
      Payload.from_href store resolve href allow = .ok q →
      ∃ h₀ p₀, store h₀ = some p₀ ∧ p₀.isIndirect = false ∧
        q = { p₀ with self_href := some h₀ }) := by
  constructor
  · intro href allow p hp hempty
    have hi : p.isIndirect = false := by
      simp [Payload.isIndirect, hempty]
    rw [Payload.from_href, hp]
    simp [hi]
  · intro href allow q hq
    exact from_href_ok_source store resolve href allow q hq

/-- Witness for C8: loading the direct sample payload from a singleton
store returns it unchanged with `self_href` set to the load location. -/
theorem c8_loaded_payload_self_href_witness :
    Payload.from_href (fun h => if h = "p.json" then some directPayload else none)
        (fun r _ => r) "p.json" true =
      .ok { directPayload with self_href := some "p.json" } :=
  (c8_loaded_payload_self_href
      (fun h => if h = "p.json" then some directPayload else none)
      (fun r _ => r)).1
    "p.json" true directPayload (by simp) (by simp [directPayload])

end StacTaskCore

namespace Stactask

lemma mem_pySetList (a : String) (l : List String) :
    a ∈ pySetList l ↔ a ∈ l := by
  induction l using pySetList.induct with
  | case1 => simp [pySetList]
  | case2 x xs ih =>
    rw [pySetList]
    by_cases hax : a = x
    · subst hax; simp
    · simp only [List.mem_cons, hax, false_or]
      rw [ih]
      simp [List.mem_filter, hax]

lemma nodup_pySetList (l : List String) : (pySetList l).Nodup := by
  induction l using pySetList.induct with
  | case1 => simp [pySetList]
  | case2 x xs ih =>
    rw [pySetList]
    refine List.nodup_cons.mpr ⟨?_, ih⟩
    rw [mem_pySetList]
    simp [List.mem_filter]

lemma pySetList_append_singleton (e : String) (l : List String) :
    pySetList (l ++ [e]) = if e ∈ l then pySetList l else pySetList l ++ [e] := by
  induction l using pySetList.induct with
  | case1 => simp [pySetList]
  | case2 x xs ih =>
    by_cases hex : e = x
    · subst hex
      rw [List.cons_append, pySetList, List.filter_append]
      have : [e].filter (fun y => y != e) = [] := by simp
      rw [this, List.append_nil, pySetList]
      simp
    · rw [List.cons_append, pySetList, List.filter_append]
      have : [e].filter (fun y => y != x) = [e] := by simp [hex]
      rw [this, ih, pySetList]
      have hmem : e ∈ xs.filter (fun y => y != x) ↔ e ∈ xs := by
        simp [List.mem_filter, hex]
      by_cases hexs : e ∈ xs
      · simp [hmem, hexs, hex]
      · simp [hmem, hexs, hex]

lemma pySetList_of_nodup (l : List String) (h : l.Nodup) : pySetList l = l := by
  induction l using pySetList.induct with
  | case1 => simp [pySetList]
  | case2 x xs ih =>
    have hx : x ∉ xs := (List.nodup_cons.mp h).1
    have hfilter : xs.filter (fun y => y != x) = xs := by
      apply List.filter_eq_self.mpr
      intro a ha
      simp only [bne_iff_ne, ne_eq, decide_eq_true_eq]
      rintro rfl
      exact hx ha
    rw [hfilter] at ih
    rw [pySetList, hfilter, ih (List.nodup_cons.mp h).2]

lemma pySetList_restamp (e : String) (l : List String) :
    pySetList (pySetList (l ++ [e]) ++ [e]) = pySetList (l ++ [e]) := by
  have hmem : e ∈ pySetList (l ++ [e]) := (mem_pySetList _ _).mpr (by simp)
  rw [pySetList_append_singleton, if_pos hmem,
    pySetList_of_nodup _ (nodup_pySetList _)]

lemma count_pySetList_of_mem (e : String) (l : List String) (h : e ∈ l) :
    (pySetList l).count e = 1 :=
  List.count_eq_one_of_mem (nodup_pySetList l) ((mem_pySetList _ _).mpr h)

lemma lookup_map_replace (k : String) (v : PVal) (l : List (String × PVal))
    (h : l.any (fun p => p.1 == k) = true) :
    (l.map (fun p => if p.1 == k then (k, v) else p)).lookup k = some v := by
  induction l with
  | nil => simp at h
  | cons p ps ih =>
    by_cases hp : p.1 = k
    · have hc : (p.1 == k) = true := by simpa using hp
      simp only [List.map_cons, if_pos hc]
      simp [List.lookup]
    · have hps : ps.any (fun q => q.1 == k) = true := by
        simp only [List.any_cons, Bool.or_eq_true] at h
        rcases h with h | h
        · exact absurd (by simpa using h) hp
        · exact h
      have hc : ¬((p.1 == k) = true) := by simpa using hp
      have hne : (k == p.1) = false := beq_eq_false_iff_ne.mpr (fun he => hp he.symm)
      rw [List.map_cons, if_neg hc]
      simp only [List.lookup, hne]
      exact ih hps

lemma lookup_append_of_none (k : String) (v : PVal) (l : List (String × PVal))
    (h : l.any (fun p => p.1 == k) = false) :
    (l ++ [(k, v)]).lookup k = some v := by
  induction l with
  | nil => simp [List.lookup]
  | cons p ps ih =>
    simp only [List.any_cons, Bool.or_eq_false_iff] at h
    have hne : (k == p.1) = false :=
      beq_eq_false_iff_ne.mpr (fun he => by simp [he.symm] at h)
    simp only [List.cons_append, List.lookup, hne]
    exact ih h.2

lemma lookup_setKey (l : List (String × PVal)) (k : String) (v : PVal) :
    (setKey l k v).lookup k = some v := by
  unfold setKey
  by_cases h : l.any (fun p => p.1 == k)
  · rw [if_pos h]
    exact lookup_map_replace k v l h
  · rw [if_neg h]
    exact lookup_append_of_none k v l (by rwa [Bool.not_eq_true] at h)


end Stactask

namespace Stactask

lemma except_bind_error {α β γ : Type} (e : α) (f : β → Except α γ) :
    (Except.error e >>= f) = Except.error e := rfl

lemma except_bind_ok {α β γ : Type} (b : β) (f : β → Except α γ) :
    (Except.ok b >>= f) = f b := rfl

lemma add_sv_item_shape (name version : String) (i i' : SItem)
    (h : add_software_version_item name version i = .ok i') :
    ∃ exts props, i.stac_extensions = some exts ∧ i.properties = some props ∧
      i' = { i with
        stac_extensions := some (pySetList (exts ++ [processing_ext])),
        properties :=
          some (setKey props "processing:software" (.software name version)) } := by
  unfold add_software_version_item at h
  cases hext : i.stac_extensions with
  | none => rw [hext] at h; cases h
  | some exts =>
    rw [hext] at h
    cases hprops : i.properties with
    | none => rw [hprops] at h; cases h
    | some props =>
      rw [hprops] at h
      cases h
      exact ⟨exts, props, rfl, rfl, rfl⟩

lemma add_sv_item_restamp (name version : String) (i i' : SItem)
    (h : add_software_version_item name version i = .ok i') :
    ∃ i'', add_software_version_item name version i' = .ok i'' ∧
      i''.stac_extensions = i'.stac_extensions := by
  obtain ⟨exts, props, hext, hprops, rfl⟩ := add_sv_item_shape name version i i' h
  refine ⟨_, rfl, ?_⟩
  exact congrArg some (pySetList_restamp processing_ext exts)

lemma add_sv_item_props (name version : String) (i i' : SItem)
    (h : add_software_version_item name version i = .ok i') :
    (i'.stac_extensions.getD []).count processing_ext = 1 ∧
    (i'.properties.getD []).lookup "processing:software" =
      some (PVal.software name version) := by
  obtain ⟨exts, props, hext, hprops, rfl⟩ := add_sv_item_shape name version i i' h
  constructor
  · simpa using count_pySetList_of_mem processing_ext (exts ++ [processing_ext]) (by simp)
  · simpa using lookup_setKey props "processing:software" (.software name version)

/-- C3: provenance stamping is idempotent on the extension lists.  When
stamping a batch succeeds, stamping the result succeeds again and
yields the same deduplicated extension list for every item; after the
first stamping every item carries the processing-extension marker
exactly once and records the task name and version under the
processing software property. -/
theorem c3_stamp_idempotent (name version : String) (items items₁ : List SItem)
    (h : add_software_version name version items = .ok items₁) :
    ∃ items₂, add_software_version name version items₁ = .ok items₂ ∧
      items₂.map SItem.stac_extensions = items₁.map SItem.stac_extensions ∧
      ∀ i ∈ items₁,
        (i.stac_extensions.getD []).count processing_ext = 1 ∧
        (i.properties.getD []).lookup "processing:software" =
          some (PVal.software name version) := by
  induction items generalizing items₁ with
  | nil =>
    unfold add_software_version at h ⊢
    rw [List.mapM_nil] at h
    cases h
    refine ⟨[], ?_, rfl, ?_⟩
    · rw [List.mapM_nil]
      rfl
    · intro i hi
      simp at hi
  | cons x xs ih =>
    unfold add_software_version at h ih ⊢
    rw [List.mapM_cons] at h
    cases hx : add_software_version_item name version x with
    | error e =>
      rw [hx, except_bind_error] at h
      cases h
    | ok y =>
      rw [hx, except_bind_ok] at h
      cases hxs : xs.mapM (add_software_version_item name version) with
      | error e =>
        rw [hxs, except_bind_error] at h
        cases h
      | ok ys =>
        rw [hxs, except_bind_ok] at h
        have h' : items₁ = y :: ys := by
          cases h
          rfl
        subst h'
        obtain ⟨ys₂, hys₂, hmap, hrest⟩ := ih ys hxs
        obtain ⟨y₂, hy₂, hyext⟩ := add_sv_item_restamp name version x y hx
        refine ⟨y₂ :: ys₂, ?_, ?_, ?_⟩
        · rw [List.mapM_cons, hy₂, except_bind_ok, hys₂, except_bind_ok]
          rfl
        · simp [hyext, hmap]
        · intro i hi
          rcases List.mem_cons.mp hi with rfl | hi'
          · exact add_sv_item_props name version x i hx
          · exact hrest i hi'

/-- A fresh feature carrying empty extension and property lists. -/
def sampleFreshItem : SItem :=
  { collection := none, stac_extensions := some [], properties := some [], rest := 0 }

/-- The fresh feature after one stamping pass of the task named "task"
at version "0.1.0". -/
def sampleStamped : SItem :=
  { collection := none, stac_extensions := some [processing_ext],
    properties := some [("processing:software", PVal.software "task" "0.1.0")],
    rest := 0 }

/-- Witness for C3 on a singleton batch: the first stamping yields the
stamped feature, and restamping it changes no extension list. -/
theorem c3_stamp_idempotent_witness :
    ∃ items₂,
      add_software_version "task" "0.1.0" [sampleStamped] = .ok items₂ ∧
      items₂.map SItem.stac_extensions = [sampleStamped].map SItem.stac_extensions ∧
      ∀ i ∈ [sampleStamped],
        (i.stac_extensions.getD []).count processing_ext = 1 ∧
        (i.properties.getD []).lookup "processing:software" =
          some (PVal.software "task" "0.1.0") :=
  c3_stamp_idempotent "task" "0.1.0" [sampleFreshItem] [sampleStamped] (by
    have hitem : add_software_version_item "task" "0.1.0" sampleFreshItem =
        .ok sampleStamped := by
      simp only [add_software_version_item, sampleFreshItem, sampleStamped]
      simp [pySetList, setKey]
    rw [add_software_version, List.mapM_cons, hitem, except_bind_ok, List.mapM_nil]
    rfl)

/-- C10: stamping a batch in which some feature lacks the
`stac_extensions` key fails with a `KeyError` instead of creating the
list: the stamping step implicitly requires every input item to carry
`stac_extensions`. -/
theorem c10_missing_extensions_fails (name version : String) (items : List SItem)
    (h : ∃ i ∈ items, i.stac_extensions = none) :
    ∃ e, add_software_version name version items = .error e := by
  induction items with
  | nil => simp at h
  | cons x xs ih =>
    obtain ⟨i, hi, hnone⟩ := h
    unfold add_software_version at ih ⊢
    rw [List.mapM_cons]
    rcases List.mem_cons.mp hi with rfl | hi'
    · refine ⟨.keyError "stac_extensions", ?_⟩
      have hx : add_software_version_item name version i =
          .error (.keyError "stac_extensions") := by
        unfold add_software_version_item
        rw [hnone]
      rw [hx, except_bind_error]
    · cases hx : add_software_version_item name version x with
      | error e => exact ⟨e, by simp only [except_bind_error]⟩
      | ok y =>
        obtain ⟨e, he⟩ := ih ⟨i, hi', hnone⟩
        refine ⟨e, ?_⟩
        simp only [except_bind_ok, he, except_bind_error]

/-- A feature dictionary with no `stac_extensions` key at all. -/
def sampleBareItem : SItem :=
  { collection := none, stac_extensions := none, properties := none, rest := 0 }

/-- Witness for C10: a singleton batch whose feature lacks
`stac_extensions` makes stamping fail. -/
theorem c10_missing_extensions_fails_witness :
    ∃ e, add_software_version "task" "0.1.0" [sampleBareItem] = .error e :=
  c10_missing_extensions_fails "task" "0.1.0" [sampleBareItem]
    ⟨sampleBareItem, by simp, rfl⟩

end Stactask

namespace Stactask

/-- A raw feature labelled with its original collection, used to
instantiate the collection-reassignment theorems. -/
def sampleRawFeature : SItem :=
  { collection := some "raw", stac_extensions := some [], properties := some [],
    rest := 0 }

/-- C1 is refuted on the code: `assign_collections` assigns on every
matching rule of `itertools.product`, so with two rules that both match
the feature ends up in the collection of the second rule, while the
claim requires the first. -/
theorem c1_first_match_refuted :
    ((assign_collections (fun _ _ => true)
        [("collection-A", "ruleA"), ("collection-B", "ruleB")]
        [sampleRawFeature]).map SItem.collection = [some "collection-B"]) ∧
    some "collection-B" ≠ some "collection-A" := by
  constructor
  · rfl
  · simp

lemma assign_collections_item_frame (matchFn : SItem → String → Bool)
    (rules : List (String × String)) (i : SItem) :
    (assign_collections_item matchFn rules i).stac_extensions = i.stac_extensions ∧
    (assign_collections_item matchFn rules i).properties = i.properties ∧
    (assign_collections_item matchFn rules i).rest = i.rest := by
  induction rules generalizing i with
  | nil => exact ⟨rfl, rfl, rfl⟩
  | cons ce rest ih =>
    unfold assign_collections_item at ih ⊢
    rw [List.foldl_cons]
    by_cases hm : matchFn i ce.2 = true
    · rw [if_pos hm]
      exact ih { i with collection := some ce.1 }
    · rw [if_neg hm]
      exact ih i

lemma assign_collections_item_last (matchFn : SItem → String → Bool)
    (hins : ∀ (j : SItem) (c : Option String) (e : String),
      matchFn { j with collection := c } e = matchFn j e)
    (rules : List (String × String)) (i : SItem) :
    (assign_collections_item matchFn rules i).collection =
      (match (rules.filter (fun ce => matchFn i ce.2)).getLast? with
       | some ce => some ce.1
       | none => i.collection) := by
  induction rules generalizing i with
  | nil => rfl
  | cons ce rest ih =>
    unfold assign_collections_item at ih ⊢
    rw [List.foldl_cons, List.filter_cons]
    by_cases hm : matchFn i ce.2 = true
    · rw [if_pos hm, if_pos hm]
      have hpred : (fun ce' => matchFn { i with collection := some ce.1 } ce'.2) =
          (fun ce' : String × String => matchFn i ce'.2) := by
        funext ce'
        exact hins i (some ce.1) ce'.2
      have := ih { i with collection := some ce.1 }
      rw [hpred] at this
      rw [this]
      cases hfl : rest.filter (fun ce' => matchFn i ce'.2) with
      | nil => rfl
      | cons q qs =>
        rw [List.getLast?_cons_cons]
        cases hql : (q :: qs).getLast? with
        | none =>
          rw [List.getLast?_eq_none_iff] at hql
          cases hql
        | some r => rfl
    · rw [if_neg hm, if_neg hm]
      exact ih i

/-- C1 (amended): `assign_collections` maps the per-feature rule fold
over the features; the rules are evaluated in declaration order and
every matching rule assigns its collection, so — whenever the match
predicate does not depend on the collection label — a feature ends up
in the collection of the last matching rule, a feature matching no rule
keeps its original collection, and every other field of the feature is
unchanged. -/
theorem c1_last_match_wins (matchFn : SItem → String → Bool)
    (rules : List (String × String)) (features : List SItem) (i : SItem)
    (hins : ∀ (j : SItem) (c : Option String) (e : String),
      matchFn { j with collection := c } e = matchFn j e) :
    (assign_collections matchFn rules features =
      features.map (assign_collections_item matchFn rules)) ∧
    ((assign_collections_item matchFn rules i).collection =
      (match (rules.filter (fun ce => matchFn i ce.2)).getLast? with
       | some ce => some ce.1
       | none => i.collection)) ∧
    (assign_collections_item matchFn rules i).stac_extensions = i.stac_extensions ∧
    (assign_collections_item matchFn rules i).properties = i.properties ∧
    (assign_collections_item matchFn rules i).rest = i.rest :=
  ⟨rfl, assign_collections_item_last matchFn hins rules i,
    assign_collections_item_frame matchFn rules i⟩

/-- Witness for the amended C1: with a predicate that only inspects the
rule expression, a feature matching the first and third of three rules
is assigned the collection of the third (last matching) rule, and its
other fields are untouched. -/
theorem c1_last_match_wins_witness :
    (assign_collections (fun _ e => e == "m")
        [("collection-A", "m"), ("collection-B", "x"), ("collection-C", "m")]
        [sampleRawFeature] =
      [sampleRawFeature].map
        (assign_collections_item (fun _ e => e == "m")
          [("collection-A", "m"), ("collection-B", "x"), ("collection-C", "m")])) ∧
    ((assign_collections_item (fun _ e => e == "m")
        [("collection-A", "m"), ("collection-B", "x"), ("collection-C", "m")]
        sampleRawFeature).collection =
      (match (([("collection-A", "m"), ("collection-B", "x"),
          ("collection-C", "m")]).filter
            (fun ce => (fun (_ : SItem) e => e == "m") sampleRawFeature ce.2)).getLast? with
       | some ce => some ce.1
       | none => sampleRawFeature.collection)) ∧
    (assign_collections_item (fun _ e => e == "m")
        [("collection-A", "m"), ("collection-B", "x"), ("collection-C", "m")]
        sampleRawFeature).stac_extensions = sampleRawFeature.stac_extensions ∧
    (assign_collections_item (fun _ e => e == "m")
        [("collection-A", "m"), ("collection-B", "x"), ("collection-C", "m")]
        sampleRawFeature).properties = sampleRawFeature.properties ∧
    (assign_collections_item (fun _ e => e == "m")
        [("collection-A", "m"), ("collection-B", "x"), ("collection-C", "m")]
        sampleRawFeature).rest = sampleRawFeature.rest :=
  c1_last_match_wins (fun _ e => e == "m")
    [("collection-A", "m"), ("collection-B", "x"), ("collection-C", "m")]
    [sampleRawFeature] sampleRawFeature (fun _ _ _ => rfl)

end Stactask
